import Mathlib

set_option autoImplicit false

/-!
Shallow embedding of the HubbleStack Nova `sysctl` audit module
(`hubblestack_nova/modules/sysctl.py`): the data model, the YAML merge step
(`_merge_yaml`), tag-index construction (`_get_tags`), per-tag evaluation and
report aggregation (`audit`).  The Python runtime errors the module can raise
while processing rule data (KeyError, UnboundLocalError, TypeError) are made
explicit with an `Except` monad.  The live-value lookup `__salt__['sysctl.get']`
is an injected function parameter, and the `osfinger` grain is an
`Option String` (`none` models an absent grain, i.e. Python `None`).
-/

namespace Nova

/-- Atomic Python/YAML values occurring as rule-entry field values:
strings and Python `None`. -/
inductive Val where
  | vstr : String → Val
  | vnone : Val
deriving DecidableEq, Repr

/-- A Python dict with string keys and atomic values, modelled as an
insertion-ordered association list without duplicate keys. -/
abbrev Dict := List (String × Val)

/-- A CheckSpec as it appears under an osfinger key: either the bare
expected-value scalar shorthand, or a mapping holding `tag`, `match_output`,
optionally `control`, plus free-form extra keys. -/
inductive Spec where
  | scalar : Val → Spec
  | smap : Dict → Spec
deriving DecidableEq, Repr

/-- A rule variant selected for one osfinger pattern: either the well-formed
shape (a list of single-key `{checkName: CheckSpec}` dicts, each modelled as an
association list since Python iterates every pair of each item) or the
malformed shape (one mapping `{checkName: CheckSpec, ...}`). -/
inductive Variant where
  | lst : List (List (String × Spec)) → Variant
  | vmap : List (String × Spec) → Variant
deriving DecidableEq, Repr

/-- A RuleDefinition: the `data` mapping from host patterns to variants (in
the dict's native order) together with the remaining top-level fields
(`description`, `alert`, `trigger`, and `nova_profile` once merged). -/
structure RuleDef where
  data : List (String × Variant)
  fields : Dict
deriving DecidableEq, Repr

/-- Python runtime errors reachable in this module: `KeyError` (a required
dict key is missing), `UnboundLocalError`/`NameError` (a local variable is
referenced before assignment) and `TypeError` (a non-string passed to regex
matching inside `fnmatch`). -/
inductive PyErr where
  | keyError : PyErr
  | nameError : PyErr
  | typeError : PyErr
deriving DecidableEq, Repr

/-- One item of a report category: `{tag: description}` in summary mode,
`{tag: {'description': ..., 'control': ...}}` for controlled summaries, and
`{tag: fullEntry}` in verbose mode. -/
inductive Payload where
  | desc : Val → Payload
  | ctrl : Val → Val → Payload
  | full : Dict → Payload
deriving DecidableEq, Repr

/-- The final report.  `controlled = none` models the absence of the
`'Controlled'` key (it is popped when its list is empty). -/
structure Report where
  success : List (Val × Payload)
  failure : List (Val × Payload)
  controlled : Option (List (Val × Payload))
deriving DecidableEq, Repr

/-! ## Dict primitives (Python dict semantics on association lists) -/

/-- First-match association lookup over any key type (Python `d.get(k)`). -/
def aget {κ α : Type} [DecidableEq κ] : List (κ × α) → κ → Option α
  | [], _ => none
  | p :: l, k => if p.1 = k then some p.2 else aget l k

/-- Python `d.get(k)` on a string-keyed dict. -/
def dget : Dict → String → Option Val
  | [], _ => none
  | p :: d, k => if p.1 = k then some p.2 else dget d k

/-- Python `k in d`. -/
def dmem (d : Dict) (k : String) : Bool :=
  (dget d k).isSome

/-- Python `d[k] = v`: replace the value at an existing key in place,
otherwise append the new pair. -/
def dset : Dict → String → Val → Dict
  | [], k, v => [(k, v)]
  | p :: d, k, v => if p.1 = k then (k, v) :: d else p :: dset d k v

/-- Removal of a key (the effect of Python `d.pop(k)` on the dict). -/
def ddelete : Dict → String → Dict
  | [], _ => []
  | p :: d, k => if p.1 = k then d else p :: ddelete d k

/-- Python `d.pop(k)`: the popped value and the shrunk dict, or `none` for
the `KeyError` case. -/
def dpop (d : Dict) (k : String) : Option (Val × Dict) :=
  match dget d k with
  | none => none
  | some v => some (v, ddelete d k)

/-- Python `d.update(e)`: assign every pair of `e` into `d` left to right. -/
def dupdate (d e : Dict) : Dict :=
  e.foldl (fun a p => dset a p.1 p.2) d

/-! ## Python string primitives used by the module -/

/-- Python `str()` on the values in scope (`str(None) = "None"`). -/
def pyStr : Val → String
  | .vstr s => s
  | .vnone => "None"

/-- Python truthiness on the values in scope (`None` and the empty string
are falsy). -/
def pyTruthy : Val → Bool
  | .vstr s => !s.isEmpty
  | .vnone => false

/-- Python `str.strip()`: drop whitespace from both ends. -/
def stripChars (cs : List Char) : List Char :=
  ((cs.dropWhile Char.isWhitespace).reverse.dropWhile Char.isWhitespace).reverse

/-- Python `str.split(',')` on the character list: always returns at least
one (possibly empty) field. -/
def splitComma : List Char → List (List Char)
  | [] => [[]]
  | c :: cs =>
    if c = ',' then [] :: splitComma cs
    else
      match splitComma cs with
      | [] => [[c]]
      | f :: r => (c :: f) :: r

/-- The module's `[finger.strip() for finger in osfinger.split(',')]`. -/
def splitStrip (k : String) : List String :=
  (splitComma k.data).map (fun cs => String.mk (stripChars cs))

/-- Fuel-indexed shell-style glob matcher: `*` matches any run of
characters, `?` any single character, anything else itself (the bracket
classes of `fnmatch` are not exercised by this module's patterns).  The fuel
only bounds recursion depth; `globMatch` always supplies enough. -/
def gmFuel : Nat → List Char → List Char → Bool
  | 0, _, _ => false
  | _ + 1, [], n => n.isEmpty
  | f + 1, p :: ps, n =>
    if p = '*' then
      match n with
      | [] => gmFuel f ps []
      | _ :: cs => gmFuel f ps n || gmFuel f (p :: ps) cs
    else
      match n with
      | [] => false
      | c :: cs => (p = '?' || p = c) && gmFuel f ps cs

/-- `fnmatch.fnmatch(s, pat)` for a string `s` (POSIX `normcase` is the
identity, so matching is case-sensitive). -/
def globMatch (s pat : String) : Bool :=
  gmFuel (pat.data.length + s.data.length + 1) pat.data s.data

/-- `fnmatch.fnmatch(name, pat)` where `name` may be Python `None` (an
absent grain): the regex engine raises `TypeError` on a non-string. -/
def fnmatchPy (name : Option String) (pat : String) : Except PyErr Bool :=
  match name with
  | none => .error .typeError
  | some s => .ok (globMatch s pat)

/-! ## Host-pattern variant selection (the osfinger loop of `_get_tags`) -/

/-- The inner `for osfinger_glob in osfinger_list` loop: stop at the first
glob that matches the distro. -/
def firstGlobMatch (distro : Option String) : List String → Except PyErr Bool
  | [] => .ok false
  | g :: gs => do
    if ← fnmatchPy distro g then .ok true else firstGlobMatch distro gs

/-- The outer `for osfinger in tags_dict` loop: skip the literal `'*'`,
split each remaining key on commas (stripping whitespace) and return the
first key's variant whose glob list hits the distro. -/
def scanPatterns (distro : Option String) :
    List (String × Variant) → Except PyErr (Option Variant)
  | [] => .ok none
  | (k, v) :: rest =>
    if k = "*" then scanPatterns distro rest
    else do
      if ← firstGlobMatch distro (splitStrip k) then .ok (some v)
      else scanPatterns distro rest

/-- Variant selection for one rule id: first-hit pattern scan, then the
`'*'` fallback, then the empty list. -/
def selectVariant (distro : Option String) (pm : List (String × Variant)) :
    Except PyErr Variant := do
  match ← scanPatterns distro pm with
  | some v => .ok v
  | none => .ok ((aget pm "*").getD (.lst []))

/-- The `isinstance(tags, dict)` normalization: a malformed mapping becomes
a list of single-key dicts. -/
def normVariant : Variant → List (List (String × Spec))
  | .lst l => l
  | .vmap m => m.map (fun p => [p])

/-! ## Tag-index construction (`_get_tags`) -/

/-- The running state of `_get_tags`: the tag index built so far, plus the
current value of the function-local variable `tag_data` (`none` while it is
still unassigned, which makes a later read raise `UnboundLocalError`). -/
structure GetSt where
  ret : List (Val × List Dict)
  td : Option Dict
deriving DecidableEq, Repr

/-- Append an entry to the list at a tag key, creating the key if absent
(`if tag not in ret: ret[tag] = []` followed by `ret[tag].append(...)`). -/
def indexAdd (ret : List (Val × List Dict)) (tag : Val) (e : Dict) :
    List (Val × List Dict) :=
  if (aget ret tag).isSome then
    ret.map (fun p => if p.1 = tag then (p.1, p.2 ++ [e]) else p)
  else ret ++ [(tag, [e])]

/-- Build one canonical rule entry: start from
`{'name': name, 'tag': tag, 'module': 'sysctl'}`, update with the CheckSpec
remainder (`tag_data`), update with the RuleDefinition (whose `data` key is
then popped off). -/
def buildEntry (name : String) (tagKey : Val) (specRest fields : Dict) : Dict :=
  ddelete
    (dupdate (dupdate [("name", .vstr name), ("tag", tagKey), ("module", .vstr "sysctl")]
      specRest) fields) "data"

/-- Process one `(name, CheckSpec)` pair: a mapping CheckSpec is deep-copied
and has its `tag` popped (KeyError when absent), assigning `tag_data`; a
scalar CheckSpec is itself the tag and the subsequent
`formatted_data.update(tag_data)` reads whatever `tag_data` currently holds
(UnboundLocalError when it was never assigned). -/
def entryFromSpec (fields : Dict) (st : GetSt) (name : String) (spec : Spec) :
    Except PyErr GetSt :=
  match spec with
  | .smap d =>
    match dpop d "tag" with
    | none => .error .keyError
    | some (tagKey, rest) =>
      .ok ⟨indexAdd st.ret tagKey (buildEntry name tagKey rest fields), some rest⟩
  | .scalar t =>
    match st.td with
    | none => .error .nameError
    | some stale =>
      .ok ⟨indexAdd st.ret t (buildEntry name t stale fields), some stale⟩

/-- The `for name, tag in item.iteritems()` loop. -/
def procItem (fields : Dict) : GetSt → List (String × Spec) → Except PyErr GetSt
  | st, [] => .ok st
  | st, (name, spec) :: rest => do
    procItem fields (← entryFromSpec fields st name spec) rest

/-- The `for item in tags` loop. -/
def procItems (fields : Dict) : GetSt → List (List (String × Spec)) → Except PyErr GetSt
  | st, [] => .ok st
  | st, item :: rest => do
    procItems fields (← procItem fields st item) rest

/-- Process one `(ruleId, RuleDefinition)` entry of the merged store. -/
def procRule (distro : Option String) (st : GetSt) (rd : RuleDef) :
    Except PyErr GetSt := do
  let v ← selectVariant distro rd.data
  procItems rd.fields st (normVariant v)

/-- The `for audit_dict in data.get('sysctl', [])` loop. -/
def getTagsGo (distro : Option String) :
    List (String × RuleDef) → GetSt → Except PyErr GetSt
  | [], st => .ok st
  | r :: rest, st => do
    getTagsGo distro rest (← procRule distro st r.2)

/-- `_get_tags`: derive the tag index from the merged store for the current
distro. -/
def getTags (distro : Option String) (store : List (String × RuleDef)) :
    Except PyErr (List (Val × List Dict)) :=
  (getTagsGo distro store ⟨[], none⟩).map (·.ret)

/-! ## Evaluation (the classification loops of `audit`) -/

/-- The running state of the evaluation loop: the three raw category lists
and the current value of `audit`'s local variable `tag_data`. -/
structure EvalSt where
  succ : List Dict
  fail : List Dict
  ctrl : List Dict
  td : Option Dict
deriving DecidableEq, Repr

/-- The `for tag_data in __tags__[tag]` loop: controlled entries are appended
to the Controlled list; each other entry reads `name` and `match_output`
(KeyError when absent), performs the live lookup, and clears the rolling
`passed` flag when the result is falsy, starts with `"error"`, or differs
from the stringified `match_output`.  The loop variable is recorded so the
entry seen last is available after the loop. -/
def tagLoop (lookup : Val → Val) :
    List Dict → Bool → List Dict → Option Dict →
    Except PyErr (Bool × List Dict × Option Dict)
  | [], passed, ctrl, td => .ok (passed, ctrl, td)
  | e :: rest, passed, ctrl, _ =>
    if dmem e "control" then tagLoop lookup rest passed (ctrl ++ [e]) (some e)
    else
      match dget e "name" with
      | none => .error .keyError
      | some name =>
        match dget e "match_output" with
        | none => .error .keyError
        | some mo =>
          let r := lookup name
          let passed := passed &&
            (pyTruthy r && !((pyStr r).startsWith "error") && (pyStr r == pyStr mo))
          tagLoop lookup rest passed ctrl (some e)

/-- Evaluate one tag whose name matched the tag filter: run `tagLoop`, then
append the last-seen `tag_data` to Success or Failure according to the
rolling `passed` flag (UnboundLocalError when no entry was ever seen). -/
def processTag (lookup : Val → Val) (entries : List Dict) (st : EvalSt) :
    Except PyErr EvalSt := do
  let (passed, ctrl, td) ← tagLoop lookup entries true st.ctrl st.td
  match td with
  | none => .error .nameError
  | some last =>
    if passed then .ok ⟨st.succ ++ [last], st.fail, ctrl, some last⟩
    else .ok ⟨st.succ, st.fail ++ [last], ctrl, some last⟩

/-- The `for tag in __tags__` loop: glob-filter the tag names (`fnmatch`
raises TypeError on a non-string tag) and evaluate the matching ones. -/
def evalTags (lookup : Val → Val) (tags : String) :
    List (Val × List Dict) → EvalSt → Except PyErr EvalSt
  | [], st => .ok st
  | (tag, entries) :: rest, st =>
    match tag with
    | .vstr ts =>
      if globMatch ts tags then do
        evalTags lookup tags rest (← processTag lookup entries st)
      else evalTags lookup tags rest st
    | _ => .error .typeError

/-! ## Aggregation (the reporting half of `audit`) -/

/-- Summary key and output for Success/Failure entries: the `(tag,
description)` pair (`tag_data['tag']` raises KeyError when absent, which the
`dmem` guard in `dedupLoop` models; `description` defaults to `None`). -/
def sfKey (e : Dict) : Val × Val :=
  ((dget e "tag").getD .vnone, (dget e "description").getD .vnone)

/-- Summary output item for Success/Failure: `{tag: description}`. -/
def sfOut (e : Dict) : Val × Payload :=
  ((dget e "tag").getD .vnone, .desc ((dget e "description").getD .vnone))

/-- Dedup key for Controlled entries: `(tag, description, control_reason)`
with the control reason defaulting to the empty string. -/
def ctrlKey (e : Dict) : Val × Val × Val :=
  ((dget e "tag").getD .vnone, (dget e "description").getD .vnone,
    (dget e "control").getD (.vstr ""))

/-- Summary output item for Controlled entries:
`{tag: {'description': ..., 'control': ...}}`. -/
def ctrlOut (e : Dict) : Val × Payload :=
  ((dget e "tag").getD .vnone,
    .ctrl ((dget e "description").getD .vnone) ((dget e "control").getD (.vstr "")))

/-- The non-verbose reduction loop for one category: read the tag (KeyError
when absent), drop the entry when its key was already seen, otherwise emit
its summary item and remember the key. -/
def dedupLoop {κ : Type} [DecidableEq κ] (key : Dict → κ) (out : Dict → Val × Payload) :
    List Dict → List κ → List (Val × Payload) → Except PyErr (List (Val × Payload))
  | [], _, acc => .ok acc
  | e :: l, seen, acc =>
    if dmem e "tag" then
      if key e ∈ seen then dedupLoop key out l seen acc
      else dedupLoop key out l (seen ++ [key e]) (acc ++ [out e])
    else .error .keyError

/-- The verbose loop for one category: one `{tag: fullEntry}` item per
classified entry, in order. -/
def verbLoop : List Dict → Except PyErr (List (Val × Payload))
  | [] => .ok []
  | e :: l =>
    match dget e "tag" with
    | none => .error .keyError
    | some t => (verbLoop l).map (fun r => (t, .full e) :: r)

/-- The reporting half of `audit`: reduce the three raw category lists
(Failure first, then Success, then Controlled, as in the source), and pop
the `'Controlled'` key when its list is empty. -/
def aggregate (verbose : Bool) (succ fail ctrl : List Dict) :
    Except PyErr Report :=
  if verbose then do
    let f ← verbLoop fail
    let s ← verbLoop succ
    let c ← verbLoop ctrl
    .ok ⟨s, f, if c.isEmpty then none else some c⟩
  else do
    let f ← dedupLoop sfKey sfOut fail [] []
    let s ← dedupLoop sfKey sfOut succ [] []
    let c ← dedupLoop ctrlKey ctrlOut ctrl [] []
    .ok ⟨s, f, if c.isEmpty then none else some c⟩

/-! ## Merge (`_merge_yaml`) and the top-level `audit` -/

/-- `_merge_yaml`: append every rule of the document to the accumulator,
injecting `nova_profile` when a (truthy) profile name is supplied. -/
def mergeYaml (ret : List (String × RuleDef)) (data : List (String × RuleDef))
    (profile : Option String) : List (String × RuleDef) :=
  ret ++ data.map (fun p =>
    match profile with
    | some prof =>
      if prof.isEmpty then p
      else (p.1, ⟨p.2.data, dset p.2.fields "nova_profile" (.vstr prof)⟩)
    | none => p)

/-- The merge loop at the top of `audit`: fold the supplied
`(profile, document)` pairs, passing the profile name only when
`show_profile` is set. -/
def buildStore (dataList : List (String × List (String × RuleDef)))
    (showProfile : Bool) : List (String × RuleDef) :=
  dataList.foldl
    (fun acc pd => mergeYaml acc pd.2 (if showProfile then some pd.1 else none)) []

/-- The full `audit` entry point: merge the documents, build the tag index,
evaluate the tags matching the filter, and aggregate the report. -/
def audit (dataList : List (String × List (String × RuleDef))) (tags : String)
    (verbose showProfile : Bool) (distro : Option String) (lookup : Val → Val) :
    Except PyErr Report := do
  let idx ← getTags distro (buildStore dataList showProfile)
  let st ← evalTags lookup tags idx ⟨[], [], [], none⟩
  aggregate verbose st.succ st.fail st.ctrl

/-! ## Dict lemmas -/

theorem dget_dset_self (d : Dict) (k : String) (v : Val) :
    dget (dset d k v) k = some v := by
  induction d with
  | nil => simp [dset, dget]
  | cons p d ih =>
    by_cases h : p.1 = k <;> simp [dset, dget, h, ih]

theorem dget_dset_ne (d : Dict) (k k' : String) (v : Val) (h : k' ≠ k) :
    dget (dset d k v) k' = dget d k' := by
  have hkk : ¬ k = k' := fun h' => h h'.symm
  induction d with
  | nil => simp [dset, dget, hkk]
  | cons p d ih =>
    by_cases hp : p.1 = k
    · simp [dset, dget, hp, hkk]
    · by_cases hp' : p.1 = k' <;> simp [dset, dget, hp, hp', h, ih]

theorem dget_eq_none_iff (d : Dict) (k : String) :
    dget d k = none ↔ k ∉ d.map Prod.fst := by
  induction d with
  | nil => simp [dget]
  | cons p d ih =>
    by_cases h : p.1 = k
    · simp [dget, h]
    · have hk : ¬ k = p.1 := fun hh => h hh.symm
      rw [dget, if_neg h, ih]
      simp [List.mem_cons, hk]

theorem dget_dupdate_of_none (d e : Dict) (k : String) (h : dget e k = none) :
    dget (dupdate d e) k = dget d k := by
  induction e generalizing d with
  | nil => simp [dupdate]
  | cons p e ih =>
    rw [dget] at h
    by_cases hp : p.1 = k
    · simp [hp] at h
    · simp only [hp, if_false] at h
      show dget (dupdate (dset d p.1 p.2) e) k = dget d k
      rw [ih _ h, dget_dset_ne _ _ _ _ (fun h' => hp h'.symm)]

theorem dget_dupdate_of_some (d e : Dict) (k : String) (v : Val)
    (hnd : (e.map Prod.fst).Nodup) (h : dget e k = some v) :
    dget (dupdate d e) k = some v := by
  induction e generalizing d with
  | nil => simp [dget] at h
  | cons p e ih =>
    simp only [List.map_cons, List.nodup_cons] at hnd
    rw [dget] at h
    by_cases hp : p.1 = k
    · simp only [hp, if_true, Option.some.injEq] at h
      have he : dget e k = none := by
        rw [dget_eq_none_iff]
        rw [hp] at hnd
        exact hnd.1
      show dget (dupdate (dset d p.1 p.2) e) k = some v
      rw [dget_dupdate_of_none _ _ _ he, hp, dget_dset_self, h]
    · simp only [hp, if_false] at h
      show dget (dupdate (dset d p.1 p.2) e) k = some v
      exact ih _ hnd.2 h

theorem keys_dset (d : Dict) (k : String) (v : Val) :
    (dset d k v).map Prod.fst =
      if (dget d k).isSome then d.map Prod.fst else d.map Prod.fst ++ [k] := by
  induction d with
  | nil => simp [dset, dget]
  | cons p d ih =>
    by_cases h : p.1 = k
    · simp [dset, dget, h]
    · simp only [dset, dget, h, if_false, List.map_cons, ih]
      by_cases hs : (dget d k).isSome <;> simp [hs]

theorem nodup_keys_dset (d : Dict) (k : String) (v : Val)
    (h : (d.map Prod.fst).Nodup) : ((dset d k v).map Prod.fst).Nodup := by
  rw [keys_dset]
  by_cases hs : (dget d k).isSome
  · simpa [hs]
  · have : dget d k = none := by
      cases hdk : dget d k
      · rfl
      · simp [hdk] at hs
    have hk : k ∉ d.map Prod.fst := (dget_eq_none_iff d k).mp this
    simp [hs, List.nodup_append, h, hk]

theorem nodup_keys_dupdate (d e : Dict) (h : (d.map Prod.fst).Nodup) :
    ((dupdate d e).map Prod.fst).Nodup := by
  induction e generalizing d with
  | nil => simpa [dupdate]
  | cons p e ih =>
    show ((dupdate (dset d p.1 p.2) e).map Prod.fst).Nodup
    exact ih _ (nodup_keys_dset _ _ _ h)

theorem dget_ddelete_ne (d : Dict) (k k' : String) (h : k' ≠ k) :
    dget (ddelete d k) k' = dget d k' := by
  have hkk : ¬ k = k' := fun h' => h h'.symm
  induction d with
  | nil => simp [ddelete]
  | cons p d ih =>
    by_cases hp : p.1 = k
    · simp [ddelete, dget, hp, hkk]
    · by_cases hp' : p.1 = k' <;> simp [ddelete, dget, hp, hp', h, ih]

theorem dget_ddelete_self (d : Dict) (k : String)
    (h : (d.map Prod.fst).Nodup) : dget (ddelete d k) k = none := by
  induction d with
  | nil => simp [ddelete, dget]
  | cons p d ih =>
    simp only [List.map_cons, List.nodup_cons] at h
    by_cases hp : p.1 = k
    · simp only [ddelete, hp, if_true]
      rw [dget_eq_none_iff]
      rw [hp] at h
      exact h.1
    · simp [ddelete, dget, hp, ih h.2]

/-! ## C1: field precedence between CheckSpec and RuleDefinition -/

/-- C1 counterexample: when both the CheckSpec mapping and the enclosing
RuleDefinition define `description`, the entry `_get_tags` produces carries
the RuleDefinition's value (`"RULE-DESC"`), not the CheckSpec's
(`"SPEC-DESC"`), because `formatted_data.update(audit_data)` runs after
`formatted_data.update(tag_data)`.  This refutes the claim that
CheckSpec-derived fields take precedence. -/
theorem getTags_description_from_ruledef_cex :
    getTags (some "CentOS-7")
      [("rid", ⟨[("*", .lst [[("kernel.p",
          .smap [("tag", .vstr "T1"), ("description", .vstr "SPEC-DESC"),
                 ("match_output", .vstr "2")])]])],
        [("description", .vstr "RULE-DESC")]⟩)] =
      .ok [(.vstr "T1",
        [[("name", .vstr "kernel.p"), ("tag", .vstr "T1"),
          ("module", .vstr "sysctl"), ("description", .vstr "RULE-DESC"),
          ("match_output", .vstr "2")]])] ∧
    Val.vstr "RULE-DESC" ≠ Val.vstr "SPEC-DESC" :=
  ⟨rfl, by decide⟩

/-- C1 (amended): in the canonical rule entry built by `_get_tags`, a field
defined by the RuleDefinition overrides any value the CheckSpec gave it;
a CheckSpec-derived field survives only where the RuleDefinition leaves the
key unset, and below both sit the base `name`/`tag`/`module` keys; the
`data` key is always removed. -/
theorem buildEntry_precedence (name : String) (tagKey : Val)
    (spec fields : Dict) (k : String)
    (hs : (spec.map Prod.fst).Nodup) (hf : (fields.map Prod.fst).Nodup) :
    dget (buildEntry name tagKey spec fields) k =
      if k = "data" then none
      else
        match dget fields k with
        | some v => some v
        | none =>
          match dget spec k with
          | some v => some v
          | none =>
            dget [("name", .vstr name), ("tag", tagKey), ("module", .vstr "sysctl")] k := by
  have hbase : ((([("name", .vstr name), ("tag", tagKey),
      ("module", .vstr "sysctl")] : Dict)).map Prod.fst).Nodup := by
    have hmap : (([("name", .vstr name), ("tag", tagKey),
        ("module", .vstr "sysctl")] : Dict)).map Prod.fst =
        ["name", "tag", "module"] := rfl
    rw [hmap]
    decide
  have hnd : (((dupdate (dupdate [("name", .vstr name), ("tag", tagKey),
      ("module", .vstr "sysctl")] spec) fields)).map Prod.fst).Nodup :=
    nodup_keys_dupdate _ _ (nodup_keys_dupdate _ _ hbase)
  by_cases hk : k = "data"
  · subst hk
    simp only [if_true]
    exact dget_ddelete_self _ _ hnd
  · rw [buildEntry, dget_ddelete_ne _ _ _ hk, if_neg hk]
    cases hfk : dget fields k with
    | some v => exact dget_dupdate_of_some _ _ _ _ hf hfk
    | none =>
      rw [dget_dupdate_of_none _ _ _ hfk]
      cases hsk : dget spec k with
      | some v => exact dget_dupdate_of_some _ _ _ _ hs hsk
      | none => rw [dget_dupdate_of_none _ _ _ hsk]

/-- Witness for C1's amended theorem at a concrete collision: the
RuleDefinition's `description` wins. -/
theorem buildEntry_precedence_witness :
    dget (buildEntry "kernel.p" (.vstr "T1")
        [("description", .vstr "SPEC-DESC")]
        [("description", .vstr "RULE-DESC")]) "description" =
      some (.vstr "RULE-DESC") :=
  (buildEntry_precedence "kernel.p" (.vstr "T1")
      [("description", .vstr "SPEC-DESC")]
      [("description", .vstr "RULE-DESC")] "description"
      (by decide) (by decide)).trans rfl

/-! ## Except helper lemmas -/

theorem exbind_ok {α β : Type} (a : α) (f : α → Except PyErr β) :
    (Except.ok a : Except PyErr α) >>= f = f a := rfl

theorem exbind_error {α β : Type} (e : PyErr) (f : α → Except PyErr β) :
    (Except.error e : Except PyErr α) >>= f = .error e := rfl

theorem exmap_ok {α β : Type} (a : α) (f : α → β) :
    (Except.ok a : Except PyErr α).map f = .ok (f a) := rfl

theorem exmap_error {α β : Type} (e : PyErr) (f : α → β) :
    (Except.error e : Except PyErr α).map f = .error e := rfl

/-! ## C2: a CheckSpec mapping without `tag` -/

theorem getTagsGo_append (distro : Option String)
    (s1 s2 : List (String × RuleDef)) (st : GetSt) :
    getTagsGo distro (s1 ++ s2) st =
      match getTagsGo distro s1 st with
      | .ok st1 => getTagsGo distro s2 st1
      | .error e => .error e := by
  induction s1 generalizing st with
  | nil => simp [getTagsGo]
  | cons r s1 ih =>
    simp only [List.cons_append, getTagsGo]
    cases hpr : procRule distro st r.2 with
    | ok st1 => simp [hpr, exbind_ok, ih]
    | error e => simp [hpr, exbind_error]

/-- C2 counterexample: a store holding a well-formed rule id (`good`) and a
rule id whose CheckSpec mapping lacks `tag` (`bad`).  The whole `_get_tags`
run raises `KeyError`; no tag index is produced, not even for `good`.  This
refutes the claim that the failure is isolated to the offending rule id. -/
theorem getTags_missing_tag_cex :
    getTags (some "CentOS-7")
      [("good", ⟨[("*", .lst [[("kernel.good",
          .smap [("tag", .vstr "G1"), ("match_output", .vstr "1")])]])], []⟩),
       ("bad", ⟨[("*", .lst [[("kernel.bad",
          .smap [("match_output", .vstr "1")])]])], []⟩)] =
      .error .keyError := rfl

/-- C2 (amended): a selected CheckSpec mapping lacking `tag` makes
`tag_data.pop('tag')` raise `KeyError`, which propagates out of `_get_tags`
and aborts the entire run: whatever well-formed rule ids precede or follow
the offending one, no tag index at all is returned. -/
theorem getTags_missing_tag_keyerror (distro : Option String)
    (s1 s2 : List (String × RuleDef)) (st1 : GetSt)
    (rid name : String) (d fields : Dict)
    (h1 : getTagsGo distro s1 ⟨[], none⟩ = .ok st1)
    (h2 : dget d "tag" = none) :
    getTags distro
      (s1 ++ (rid, ⟨[("*", .lst [[(name, .smap d)]])], fields⟩) :: s2) =
      .error .keyError := by
  unfold getTags
  rw [getTagsGo_append, h1]
  simp [getTagsGo, procRule, procItems, procItem, entryFromSpec, selectVariant,
    scanPatterns, dpop, h2, aget, normVariant, exbind_ok, exbind_error, exmap_error]

/-- Witness for C2's amended theorem: the missing-`tag` rule comes first,
a well-formed rule follows, and the run still fails as a whole. -/
theorem getTags_missing_tag_keyerror_witness :
    getTags (some "CentOS-7")
      [("bad", ⟨[("*", .lst [[("kernel.bad",
          .smap [("match_output", .vstr "1")])]])], []⟩),
       ("good", ⟨[("*", .lst [[("kernel.good",
          .smap [("tag", .vstr "G1"), ("match_output", .vstr "1")])]])], []⟩)] =
      .error .keyError :=
  getTags_missing_tag_keyerror (some "CentOS-7") []
    [("good", ⟨[("*", .lst [[("kernel.good",
        .smap [("tag", .vstr "G1"), ("match_output", .vstr "1")])]])], []⟩)]
    ⟨[], none⟩ "bad" "kernel.bad" [("match_output", .vstr "1")] [] rfl rfl

/-! ## C9: the bare-scalar CheckSpec shorthand -/

/-- C9: evaluating `_get_tags` at the failing inputs.  A rule whose first
CheckSpec is the bare scalar shorthand makes
`formatted_data.update(tag_data)` read the never-assigned local `tag_data`
and raise `UnboundLocalError`; and when a mapping CheckSpec precedes the
scalar one in the same run, the stale popped mapping (here `{'foo':
'LEAK'}`) leaks into the scalar entry instead of the promised "no extra
attributes". -/
theorem getTags_scalar_spec_unbound_local :
    getTags (some "CentOS-7")
      [("randomize_va_space", ⟨[("*", .lst [[("kernel.randomize_va_space",
          .scalar (.vstr "CIS-1.6.2"))]])], []⟩)] =
      .error .nameError ∧
    getTags (some "CentOS-7")
      [("r", ⟨[("*", .lst [[("kernel.a",
          .smap [("tag", .vstr "T1"), ("foo", .vstr "LEAK")]),
          ("kernel.b", .scalar (.vstr "T2"))]])], []⟩)] =
      .ok [(.vstr "T1", [[("name", .vstr "kernel.a"), ("tag", .vstr "T1"),
             ("module", .vstr "sysctl"), ("foo", .vstr "LEAK")]]),
           (.vstr "T2", [[("name", .vstr "kernel.b"), ("tag", .vstr "T2"),
             ("module", .vstr "sysctl"), ("foo", .vstr "LEAK")]])] :=
  ⟨rfl, rfl⟩

/-! ## C5: first-hit variant selection -/

theorem firstGlobMatch_some (d : String) (gs : List String) :
    firstGlobMatch (some d) gs = .ok (gs.any (fun g => globMatch d g)) := by
  induction gs with
  | nil => simp [firstGlobMatch]
  | cons g gs ih =>
    show (fnmatchPy (some d) g) >>= _ = _
    rw [fnmatchPy]
    by_cases h : globMatch d g <;> simp [exbind_ok, h, ih]

theorem scanPatterns_some (d : String) (pm : List (String × Variant)) :
    scanPatterns (some d) pm =
      .ok ((pm.find? (fun p =>
        !(p.1 == "*") && (splitStrip p.1).any (fun g => globMatch d g))).map
          Prod.snd) := by
  induction pm with
  | nil => simp [scanPatterns, List.find?]
  | cons p pm ih =>
    obtain ⟨k, v⟩ := p
    by_cases hk : k = "*"
    · subst hk
      simp [scanPatterns, List.find?, ih]
    · simp only [scanPatterns, if_neg hk]
      show (firstGlobMatch (some d) (splitStrip k)) >>= _ = _
      rw [firstGlobMatch_some]
      have hbk : (k == "*") = false := beq_eq_false_iff_ne.mpr hk
      by_cases hm : (splitStrip k).any (fun g => globMatch d g) <;>
        simp [List.find?, exbind_ok, hk, hbk, hm, ih]

/-- C5: with a present host identity, `_get_tags` variant selection returns
the variant of the first pattern key (in the map's native order, the
literal `*` skipped) whose comma-split, whitespace-stripped glob list has a
glob matching the identity, and otherwise falls back to the `*` key or the
empty list. -/
theorem selectVariant_first_match (d : String) (pm : List (String × Variant)) :
    selectVariant (some d) pm =
      .ok (match pm.find? (fun p =>
            !(p.1 == "*") && (splitStrip p.1).any (fun g => globMatch d g)) with
           | some p => p.2
           | none => (aget pm "*").getD (.lst [])) := by
  unfold selectVariant
  rw [scanPatterns_some]
  cases pm.find? (fun p =>
      !(p.1 == "*") && (splitStrip p.1).any (fun g => globMatch d g)) <;>
    simp [exbind_ok]

/-! ## C6: selection with an absent host identity -/

theorem splitComma_ne_nil (cs : List Char) : splitComma cs ≠ [] := by
  cases cs with
  | nil => simp [splitComma]
  | cons c cs =>
    simp only [splitComma]
    by_cases h : c = ','
    · simp [h]
    · simp only [h, if_false]
      cases splitComma cs <;> simp

theorem splitStrip_ne_nil (k : String) : splitStrip k ≠ [] := by
  simp only [splitStrip, ne_eq, List.map_eq_nil_iff]
  exact splitComma_ne_nil _

theorem firstGlobMatch_none_of_ne_nil (gs : List String) (h : gs ≠ []) :
    firstGlobMatch none gs = .error .typeError := by
  cases gs with
  | nil => exact absurd rfl h
  | cons g gs => rfl

theorem scanPatterns_none_distro (pm : List (String × Variant)) :
    scanPatterns none pm =
      if pm.all (fun p => p.1 == "*") then .ok none else .error .typeError := by
  induction pm with
  | nil => simp [scanPatterns]
  | cons p pm ih =>
    obtain ⟨k, v⟩ := p
    by_cases hk : k = "*"
    · subst hk
      show scanPatterns none pm = _
      rw [ih]
      cases h : pm.all (fun p => p.1 == "*") <;> simp [List.all_cons, h]
    · have hfg : firstGlobMatch none (splitStrip k) = .error .typeError :=
        firstGlobMatch_none_of_ne_nil _ (splitStrip_ne_nil k)

      simp [scanPatterns, hk, hfg, List.all_cons, exbind_error]

/-- C6 counterexample: with the `osfinger` grain absent and a single
non-wildcard pattern key present, selection does not fall back to the empty
variant: the `fnmatch` call on `None` raises `TypeError`. -/
theorem selectVariant_none_distro_cex :
    selectVariant none [("CentOS-6", Variant.lst [])] = .error .typeError ∧
    selectVariant none [("CentOS-6", Variant.lst [])] ≠ .ok (Variant.lst []) :=
  ⟨rfl, fun h => Except.noConfusion h⟩

/-- C6 (amended): with the host identity absent, variant selection yields
the `*` variant (or the empty variant) only when the pattern map holds no
non-wildcard key at all; the moment any non-wildcard key must be tested,
`fnmatch(None, ...)` raises `TypeError` instead of treating the test as a
failed match. -/
theorem selectVariant_none_distro (pm : List (String × Variant)) :
    selectVariant none pm =
      if pm.all (fun p => p.1 == "*") then .ok ((aget pm "*").getD (.lst []))
      else .error .typeError := by
  unfold selectVariant
  rw [scanPatterns_none_distro]
  by_cases h : pm.all (fun p => p.1 == "*") <;>
    simp [h, exbind_ok, exbind_error]

/-! ## C3 and C10: per-tag classification -/

/-- The value of `audit`'s loop variable `tag_data` after iterating a list:
the last element when there is one, otherwise the value held before. -/
def lastSeen (td : Option Dict) : List Dict → Option Dict
  | [] => td
  | e :: rest => lastSeen (some e) rest

theorem lastSeen_eq_getLast (td : Option Dict) (entries : List Dict)
    (h : entries ≠ []) : lastSeen td entries = some (entries.getLast h) := by
  induction entries generalizing td with
  | nil => exact absurd rfl h
  | cons e rest ih =>
    cases rest with
    | nil => simp [lastSeen, List.getLast]
    | cons f rest' =>
      rw [lastSeen, ih (some e) (by simp)]
      simp [List.getLast_cons]

/-- The pass condition of a single non-controlled entry, exactly as `audit`
tests it: the looked-up value must be truthy, must not stringify to an
`"error"`-prefixed string, and must stringify equal to `match_output`. -/
def entryPasses (lookup : Val → Val) (e : Dict) : Bool :=
  match dget e "name", dget e "match_output" with
  | some name, some mo =>
    let r := lookup name
    pyTruthy r && !((pyStr r).startsWith "error") && (pyStr r == pyStr mo)
  | _, _ => false

theorem tagLoop_spec (lookup : Val → Val) (entries : List Dict)
    (hwf : ∀ e ∈ entries, dmem e "control" = false →
      (dget e "name").isSome ∧ (dget e "match_output").isSome) :
    ∀ (passed : Bool) (ctrl : List Dict) (td : Option Dict),
    tagLoop lookup entries passed ctrl td =
      .ok (passed && entries.all (fun e => dmem e "control" || entryPasses lookup e),
           ctrl ++ entries.filter (fun e => dmem e "control"),
           lastSeen td entries) := by
  induction entries with
  | nil => intro passed ctrl td; simp [tagLoop, lastSeen]
  | cons e rest ih =>
    intro passed ctrl td
    have hrest : ∀ x ∈ rest, dmem x "control" = false →
        (dget x "name").isSome ∧ (dget x "match_output").isSome :=
      fun x hx => hwf x (List.mem_cons_of_mem _ hx)
    by_cases hc : dmem e "control"
    · rw [tagLoop]
      simp only [hc, if_true]
      rw [ih hrest]
      simp [hc, lastSeen, List.filter_cons, Bool.true_or, List.append_assoc]
    · have hcf : dmem e "control" = false := by
        cases h : dmem e "control"
        · rfl
        · exact absurd h hc
      obtain ⟨hn, hm⟩ := hwf e (List.mem_cons_self _ _) hcf
      obtain ⟨n, hn⟩ := Option.isSome_iff_exists.mp hn
      obtain ⟨mo, hm⟩ := Option.isSome_iff_exists.mp hm
      rw [tagLoop]
      simp only [hcf, Bool.false_eq_true, if_false, hn, hm]
      rw [ih hrest]
      simp only [lastSeen, List.filter_cons, hcf, Bool.false_eq_true, if_false,
        List.all_cons, Bool.false_or, entryPasses, hn, hm]
      rw [Bool.and_assoc]

/-- C3: for a tag whose name matched the filter, a non-controlled entry
passes iff the lookup result is truthy, does not stringify with prefix
`"error"`, and stringifies equal to `match_output`; the tag lands in
Success iff every non-controlled entry passes (controlled entries are all
shunted to the Controlled list); and exactly one entry object — the last
one in the tag's list — is appended to Success or Failure. -/
theorem processTag_classification (lookup : Val → Val) (entries : List Dict)
    (st : EvalSt) (hne : entries ≠ [])
    (hwf : ∀ e ∈ entries, dmem e "control" = false →
      (dget e "name").isSome ∧ (dget e "match_output").isSome) :
    processTag lookup entries st =
      .ok ⟨(if entries.all (fun e => dmem e "control" || entryPasses lookup e)
              then st.succ ++ [entries.getLast hne] else st.succ),
           (if entries.all (fun e => dmem e "control" || entryPasses lookup e)
              then st.fail else st.fail ++ [entries.getLast hne]),
           st.ctrl ++ entries.filter (fun e => dmem e "control"),
           some (entries.getLast hne)⟩ := by
  unfold processTag
  rw [tagLoop_spec lookup entries hwf, exbind_ok,
    lastSeen_eq_getLast _ _ hne]
  by_cases hp : entries.all (fun e => dmem e "control" || entryPasses lookup e) <;>
    simp [hp]

/-- Witness for C3 at a concrete two-entry tag where the second entry fails
the string comparison: the tag is recorded as Failure with the last entry. -/
theorem processTag_classification_witness :
    processTag (fun _ => Val.vstr "2")
      [[("name", .vstr "kernel.a"), ("tag", .vstr "T"), ("match_output", .vstr "2")],
       [("name", .vstr "kernel.b"), ("tag", .vstr "T"), ("match_output", .vstr "3")]]
      ⟨[], [], [], none⟩ =
      .ok ⟨[],
           [[("name", .vstr "kernel.b"), ("tag", .vstr "T"), ("match_output", .vstr "3")]],
           [],
           some [("name", .vstr "kernel.b"), ("tag", .vstr "T"), ("match_output", .vstr "3")]⟩ :=
  (processTag_classification (fun _ => Val.vstr "2")
      [[("name", .vstr "kernel.a"), ("tag", .vstr "T"), ("match_output", .vstr "2")],
       [("name", .vstr "kernel.b"), ("tag", .vstr "T"), ("match_output", .vstr "3")]]
      ⟨[], [], [], none⟩ (by decide) (by decide)).trans rfl

theorem tagLoop_all_controlled (lookup : Val → Val) (entries : List Dict)
    (hc : ∀ e ∈ entries, dmem e "control" = true) :
    ∀ (passed : Bool) (ctrl : List Dict) (td : Option Dict),
    tagLoop lookup entries passed ctrl td =
      .ok (passed, ctrl ++ entries, lastSeen td entries) := by
  induction entries with
  | nil => intro passed ctrl td; simp [tagLoop, lastSeen]
  | cons e rest ih =>
    intro passed ctrl td
    have he := hc e (List.mem_cons_self _ _)
    rw [tagLoop]
    simp only [he, if_true]
    rw [ih (fun x hx => hc x (List.mem_cons_of_mem _ hx))]
    simp [lastSeen, List.append_assoc]

/-- C10: a non-empty tag whose entries all carry `control` sends every
entry to the Controlled list, and — because nothing clears the rolling
`passed` flag — additionally appends the tag's last entry to Success. -/
theorem processTag_all_controlled (lookup : Val → Val) (entries : List Dict)
    (st : EvalSt) (hne : entries ≠ [])
    (hc : ∀ e ∈ entries, dmem e "control" = true) :
    processTag lookup entries st =
      .ok ⟨st.succ ++ [entries.getLast hne], st.fail,
           st.ctrl ++ entries, some (entries.getLast hne)⟩ := by
  unfold processTag
  rw [tagLoop_all_controlled lookup entries hc, exbind_ok,
    lastSeen_eq_getLast _ _ hne]
  simp

/-- Witness for C10: one controlled entry ends up both in the Controlled
list and (as the tag's last entry) in the Success list. -/
theorem processTag_all_controlled_witness :
    processTag (fun _ => Val.vstr "0")
      [[("name", .vstr "kernel.c"), ("tag", .vstr "TC"), ("control", .vstr "approved")]]
      ⟨[], [], [], none⟩ =
      .ok ⟨[[("name", .vstr "kernel.c"), ("tag", .vstr "TC"), ("control", .vstr "approved")]],
           [],
           [[("name", .vstr "kernel.c"), ("tag", .vstr "TC"), ("control", .vstr "approved")]],
           some [("name", .vstr "kernel.c"), ("tag", .vstr "TC"), ("control", .vstr "approved")]⟩ :=
  (processTag_all_controlled (fun _ => Val.vstr "0")
      [[("name", .vstr "kernel.c"), ("tag", .vstr "TC"), ("control", .vstr "approved")]]
      ⟨[], [], [], none⟩ (by decide) (by decide)).trans rfl

/-! ## C4: the lookup is never consulted for controlled entries -/

/-- All canonical rule entries of a tag index, in index order. -/
def allEntries (idx : List (Val × List Dict)) : List Dict :=
  idx.foldr (fun p acc => p.2 ++ acc) []

theorem tagLoop_congr (f g : Val → Val) (entries : List Dict)
    (h : ∀ e ∈ entries, dmem e "control" = false →
      ∀ n, dget e "name" = some n → f n = g n) :
    ∀ (passed : Bool) (ctrl : List Dict) (td : Option Dict),
    tagLoop f entries passed ctrl td = tagLoop g entries passed ctrl td := by
  induction entries with
  | nil => intro _ _ _; rfl
  | cons e rest ih =>
    intro passed ctrl td
    have hrest : ∀ x ∈ rest, dmem x "control" = false →
        ∀ n, dget x "name" = some n → f n = g n :=
      fun x hx => h x (List.mem_cons_of_mem _ hx)
    by_cases hc : dmem e "control"
    · rw [tagLoop, tagLoop]
      simp only [hc, if_true]
      exact ih hrest _ _ _
    · have hcf : dmem e "control" = false := by
        cases hb : dmem e "control"
        · rfl
        · exact absurd hb hc
      rw [tagLoop, tagLoop]
      simp only [hcf, Bool.false_eq_true, if_false]
      cases hn : dget e "name" with
      | none => rfl
      | some n =>
        cases hm : dget e "match_output" with
        | none => rfl
        | some mo =>
          show tagLoop f rest (passed && (pyTruthy (f n) &&
              !((pyStr (f n)).startsWith "error") && (pyStr (f n) == pyStr mo)))
              ctrl (some e) =
            tagLoop g rest (passed && (pyTruthy (g n) &&
              !((pyStr (g n)).startsWith "error") && (pyStr (g n) == pyStr mo)))
              ctrl (some e)
          rw [h e (List.mem_cons_self _ _) hcf n hn]
          exact ih hrest _ _ _

theorem processTag_congr (f g : Val → Val) (entries : List Dict) (st : EvalSt)
    (h : ∀ e ∈ entries, dmem e "control" = false →
      ∀ n, dget e "name" = some n → f n = g n) :
    processTag f entries st = processTag g entries st := by
  unfold processTag
  rw [tagLoop_congr f g entries h]

theorem evalTags_congr (f g : Val → Val) (tags : String)
    (idx : List (Val × List Dict))
    (h : ∀ e ∈ allEntries idx, dmem e "control" = false →
      ∀ n, dget e "name" = some n → f n = g n) :
    ∀ st : EvalSt, evalTags f tags idx st = evalTags g tags idx st := by
  induction idx with
  | nil => intro _; rfl
  | cons p rest ih =>
    obtain ⟨tag, entries⟩ := p
    have hent : ∀ e ∈ entries, dmem e "control" = false →
        ∀ n, dget e "name" = some n → f n = g n :=
      fun e he => h e (by simp [allEntries, List.mem_append]; exact Or.inl he)
    have hrest : ∀ e ∈ allEntries rest, dmem e "control" = false →
        ∀ n, dget e "name" = some n → f n = g n :=
      fun e he => h e (by simp [allEntries, List.mem_append]; exact Or.inr he)
    intro st
    cases tag with
    | vnone => rfl
    | vstr ts =>
      rw [evalTags, evalTags]
      by_cases hg : globMatch ts tags
      · simp only [hg, if_true]
        rw [processTag_congr f g entries st hent]
        cases processTag g entries st with
        | error e => rfl
        | ok st1 =>
          rw [exbind_ok, exbind_ok]
          exact ih hrest st1
      · simp only [hg, Bool.false_eq_true, if_false]
        exact ih hrest st

/-- C4: for any two lookup capabilities that agree on the `name` of every
non-controlled entry of the tag index, `audit` produces identical results;
in particular the lookup is never consulted for an entry carrying
`control`, which is classified Controlled without evaluation. -/
theorem audit_lookup_independence
    (dataList : List (String × List (String × RuleDef))) (tags : String)
    (verbose showProfile : Bool) (distro : Option String) (f g : Val → Val)
    (idx : List (Val × List Dict))
    (hidx : getTags distro (buildStore dataList showProfile) = .ok idx)
    (hagree : ∀ e ∈ allEntries idx, dmem e "control" = false →
      ∀ n, dget e "name" = some n → f n = g n) :
    audit dataList tags verbose showProfile distro f =
      audit dataList tags verbose showProfile distro g := by
  unfold audit
  rw [hidx, exbind_ok, exbind_ok, evalTags_congr f g tags idx hagree]

/-- Witness for C4: a store holding one controlled rule; the two lookups
disagree everywhere, yet the audits coincide because the lookup is never
invoked. -/
theorem audit_lookup_independence_witness :
    audit [("p", [("c", ⟨[("*", .lst [[("kernel.c",
        .smap [("tag", .vstr "TC"), ("control", .vstr "approved")])]])],
        [("description", .vstr "D")]⟩)])] "*" false false (some "X")
      (fun _ => Val.vstr "1") =
    audit [("p", [("c", ⟨[("*", .lst [[("kernel.c",
        .smap [("tag", .vstr "TC"), ("control", .vstr "approved")])]])],
        [("description", .vstr "D")]⟩)])] "*" false false (some "X")
      (fun _ => Val.vstr "2") :=
  audit_lookup_independence
    [("p", [("c", ⟨[("*", .lst [[("kernel.c",
        .smap [("tag", .vstr "TC"), ("control", .vstr "approved")])]])],
        [("description", .vstr "D")]⟩)])] "*" false false (some "X")
    (fun _ => Val.vstr "1") (fun _ => Val.vstr "2")
    [(.vstr "TC", [[("name", .vstr "kernel.c"), ("tag", .vstr "TC"),
      ("module", .vstr "sysctl"), ("control", .vstr "approved"),
      ("description", .vstr "D")]])]
    rfl
    (by
      intro e he hcf n _
      have he' : e = [("name", .vstr "kernel.c"), ("tag", .vstr "TC"),
          ("module", .vstr "sysctl"), ("control", .vstr "approved"),
          ("description", .vstr "D")] := by
        simpa [allEntries] using he
      rw [he'] at hcf
      exact absurd hcf (by decide))

/-! ## C7: summary deduplication and verbose passthrough -/

/-- First-occurrence deduplication by a key function, stated by structural
recursion (keep the head, drop every later element sharing its key). -/
def dedupByFirst {κ : Type} [DecidableEq κ] (key : Dict → κ) : List Dict → List Dict
  | [] => []
  | e :: l => e :: dedupByFirst key (l.filter (fun b => decide (key b ≠ key e)))
termination_by l => l.length
decreasing_by
  simp only [List.length_cons]
  exact Nat.lt_succ_of_le (List.length_filter_le _ _)

theorem dedupLoop_spec {κ : Type} [DecidableEq κ] (key : Dict → κ)
    (out : Dict → Val × Payload) (l : List Dict)
    (htag : ∀ e ∈ l, dmem e "tag" = true) :
    ∀ (seen : List κ) (acc : List (Val × Payload)),
    dedupLoop key out l seen acc =
      .ok (acc ++
        (dedupByFirst key (l.filter (fun e => decide (key e ∉ seen)))).map out) := by
  induction l with
  | nil => intro seen acc; simp [dedupLoop, dedupByFirst]
  | cons e l ih =>
    intro seen acc
    have hl : ∀ x ∈ l, dmem x "tag" = true :=
      fun x hx => htag x (List.mem_cons_of_mem _ hx)
    have he : dmem e "tag" = true := htag e (List.mem_cons_self _ _)
    rw [dedupLoop]
    simp only [he, if_true]
    by_cases hs : key e ∈ seen
    · simp only [hs, if_true]
      rw [ih hl seen acc]
      have hd : (decide (key e ∉ seen)) = false := by simp [hs]
      simp [List.filter_cons, hd, hs]
    · simp only [hs, if_false]
      rw [ih hl (seen ++ [key e]) (acc ++ [out e])]
      have hd : (decide (key e ∉ seen)) = true := by simp [hs]
      rw [List.filter_cons]
      simp only [hd, if_true]
      rw [dedupByFirst, List.filter_filter]
      have hpred :
          ∀ b ∈ l, (decide (key b ≠ key e) && decide (key b ∉ seen)) =
            decide (key b ∉ seen ++ [key e]) := by
        intro b _
        by_cases h1 : key b = key e <;> by_cases h2 : key b ∈ seen <;>
          simp [h1, h2, List.mem_append]
      rw [List.filter_congr hpred]
      simp [List.append_assoc]

theorem verbLoop_spec (l : List Dict)
    (htag : ∀ e ∈ l, dmem e "tag" = true) :
    verbLoop l =
      .ok (l.map (fun e => ((dget e "tag").getD .vnone, Payload.full e))) := by
  induction l with
  | nil => rfl
  | cons e l ih =>
    have he := htag e (List.mem_cons_self _ _)
    rw [verbLoop]
    cases ht : dget e "tag" with
    | none =>
      rw [dmem, ht] at he
      simp at he
    | some t =>
      rw [ih (fun x hx => htag x (List.mem_cons_of_mem _ hx))]
      simp [exmap_ok, ht]

/-- C7: non-verbose aggregation reduces Success and Failure to
`{tag: description}` items deduplicated by `(tag, description)` and
Controlled to `{tag: {description, control}}` items deduplicated by
`(tag, description, control)`, first occurrence winning and order kept;
verbose aggregation emits one `{tag: fullEntry}` item per classified
result with no deduplication. -/
theorem aggregate_dedup (succ fail ctrl : List Dict)
    (hs : ∀ e ∈ succ, dmem e "tag" = true)
    (hf : ∀ e ∈ fail, dmem e "tag" = true)
    (hc : ∀ e ∈ ctrl, dmem e "tag" = true) :
    aggregate false succ fail ctrl =
      .ok ⟨(dedupByFirst sfKey succ).map sfOut,
           (dedupByFirst sfKey fail).map sfOut,
           if ((dedupByFirst ctrlKey ctrl).map ctrlOut).isEmpty then none
           else some ((dedupByFirst ctrlKey ctrl).map ctrlOut)⟩ ∧
    aggregate true succ fail ctrl =
      .ok ⟨succ.map (fun e => ((dget e "tag").getD .vnone, Payload.full e)),
           fail.map (fun e => ((dget e "tag").getD .vnone, Payload.full e)),
           if (ctrl.map (fun e => ((dget e "tag").getD .vnone, Payload.full e))).isEmpty
           then none
           else some (ctrl.map (fun e => ((dget e "tag").getD .vnone, Payload.full e)))⟩ := by
  constructor
  · simp only [aggregate, Bool.false_eq_true, if_false]
    rw [dedupLoop_spec sfKey sfOut fail hf [] [], exbind_ok,
      dedupLoop_spec sfKey sfOut succ hs [] [], exbind_ok,
      dedupLoop_spec ctrlKey ctrlOut ctrl hc [] [], exbind_ok]
    simp
  · simp only [aggregate, if_true]
    rw [verbLoop_spec fail hf, exbind_ok, verbLoop_spec succ hs, exbind_ok,
      verbLoop_spec ctrl hc, exbind_ok]

/-- Witness for C7: two Failure entries from distinct checks sharing
`(tag, description)` and a duplicated Controlled pair; non-verbose output
deduplicates them, verbose output keeps both. -/
theorem aggregate_dedup_witness :
    aggregate false []
      [[("name", .vstr "kernel.a"), ("tag", .vstr "T"), ("description", .vstr "D")],
       [("name", .vstr "kernel.b"), ("tag", .vstr "T"), ("description", .vstr "D")]]
      [] =
      .ok ⟨(dedupByFirst sfKey []).map sfOut,
           (dedupByFirst sfKey
             [[("name", .vstr "kernel.a"), ("tag", .vstr "T"), ("description", .vstr "D")],
              [("name", .vstr "kernel.b"), ("tag", .vstr "T"), ("description", .vstr "D")]]).map sfOut,
           if ((dedupByFirst ctrlKey []).map ctrlOut).isEmpty then none
           else some ((dedupByFirst ctrlKey []).map ctrlOut)⟩ ∧
    aggregate true []
      [[("name", .vstr "kernel.a"), ("tag", .vstr "T"), ("description", .vstr "D")],
       [("name", .vstr "kernel.b"), ("tag", .vstr "T"), ("description", .vstr "D")]]
      [] =
      .ok ⟨([] : List Dict).map (fun e => ((dget e "tag").getD .vnone, Payload.full e)),
           [[("name", .vstr "kernel.a"), ("tag", .vstr "T"), ("description", .vstr "D")],
            [("name", .vstr "kernel.b"), ("tag", .vstr "T"), ("description", .vstr "D")]].map
             (fun e => ((dget e "tag").getD .vnone, Payload.full e)),
           if (([] : List Dict).map
               (fun e => ((dget e "tag").getD .vnone, Payload.full e))).isEmpty
           then none
           else some (([] : List Dict).map
             (fun e => ((dget e "tag").getD .vnone, Payload.full e)))⟩ :=
  aggregate_dedup []
    [[("name", .vstr "kernel.a"), ("tag", .vstr "T"), ("description", .vstr "D")],
     [("name", .vstr "kernel.b"), ("tag", .vstr "T"), ("description", .vstr "D")]]
    [] (by decide) (by decide) (by decide)

/-! ## C8: presence of the Controlled key -/

theorem dedupLoop_extends {κ : Type} [DecidableEq κ] (key : Dict → κ)
    (out : Dict → Val × Payload) :
    ∀ (l : List Dict) (seen : List κ) (acc r : List (Val × Payload)),
    dedupLoop key out l seen acc = .ok r → ∃ t, r = acc ++ t := by
  intro l
  induction l with
  | nil =>
    intro seen acc r h
    rw [dedupLoop] at h
    injection h with h
    exact ⟨[], by rw [← h]; simp⟩
  | cons e l ih =>
    intro seen acc r h
    rw [dedupLoop] at h
    by_cases ht : dmem e "tag"
    · simp only [ht, if_true] at h
      by_cases hs : key e ∈ seen
      · simp only [hs, if_true] at h
        exact ih _ _ _ h
      · simp only [hs, if_false] at h
        obtain ⟨t, ht'⟩ := ih _ _ _ h
        exact ⟨[out e] ++ t, by rw [ht']; simp⟩
    · simp [ht] at h

theorem dedupLoop_empty_iff {κ : Type} [DecidableEq κ] (key : Dict → κ)
    (out : Dict → Val × Payload) (l : List Dict) (r : List (Val × Payload))
    (h : dedupLoop key out l [] [] = .ok r) : r = [] ↔ l = [] := by
  cases l with
  | nil =>
    rw [dedupLoop] at h
    injection h with h
    simp [← h]
  | cons e l =>
    rw [dedupLoop] at h
    by_cases ht : dmem e "tag"
    · simp only [ht, if_true, List.not_mem_nil, if_false] at h
      obtain ⟨t, rfl⟩ := dedupLoop_extends key out l _ _ _ h
      simp
    · simp [ht] at h

theorem verbLoop_empty_iff (l : List Dict) (r : List (Val × Payload))
    (h : verbLoop l = .ok r) : r = [] ↔ l = [] := by
  cases l with
  | nil =>
    rw [verbLoop] at h
    injection h with h
    simp [← h]
  | cons e l =>
    cases ht : dget e "tag" with
    | none =>
      have hred : verbLoop (e :: l) = .error .keyError := by rw [verbLoop, ht]
      rw [hred] at h
      simp at h
    | some t =>
      have hred : verbLoop (e :: l) =
          (verbLoop l).map (fun r => (t, Payload.full e) :: r) := by
        rw [verbLoop, ht]
      rw [hred] at h
      cases hv : verbLoop l with
      | error e' =>
        rw [hv] at h
        simp [exmap_error] at h
      | ok r' =>
        rw [hv, exmap_ok] at h
        injection h with h
        simp [← h]

theorem aggregate_controlled_iff (verbose : Bool) (succ fail ctrl : List Dict)
    (rep : Report) (h : aggregate verbose succ fail ctrl = .ok rep) :
    rep.controlled.isSome ↔ ctrl ≠ [] := by
  cases verbose with
  | false =>
    simp only [aggregate, Bool.false_eq_true, if_false] at h
    cases h1 : dedupLoop sfKey sfOut fail [] [] with
    | error e =>
      rw [h1, exbind_error] at h
      exact absurd h (by simp)
    | ok f' =>
      rw [h1, exbind_ok] at h
      cases h2 : dedupLoop sfKey sfOut succ [] [] with
      | error e =>
        rw [h2, exbind_error] at h
        exact absurd h (by simp)
      | ok s' =>
        rw [h2, exbind_ok] at h
        cases h3 : dedupLoop ctrlKey ctrlOut ctrl [] [] with
        | error e =>
          rw [h3, exbind_error] at h
          exact absurd h (by simp)
        | ok c' =>
          rw [h3, exbind_ok] at h
          injection h with h
          have hiff := dedupLoop_empty_iff ctrlKey ctrlOut ctrl c' h3
          rw [← h]
          by_cases hce : c' = []
          · simp [hce, hiff.mp hce]
          · have : ctrl ≠ [] := fun hctl => hce (hiff.mpr hctl)
            simp [hce, List.isEmpty_iff, this]
  | true =>
    simp only [aggregate, if_true] at h
    cases h1 : verbLoop fail with
    | error e =>
      rw [h1, exbind_error] at h
      exact absurd h (by simp)
    | ok f' =>
      rw [h1, exbind_ok] at h
      cases h2 : verbLoop succ with
      | error e =>
        rw [h2, exbind_error] at h
        exact absurd h (by simp)
      | ok s' =>
        rw [h2, exbind_ok] at h
        cases h3 : verbLoop ctrl with
        | error e =>
          rw [h3, exbind_error] at h
          exact absurd h (by simp)
        | ok c' =>
          rw [h3, exbind_ok] at h
          injection h with h
          have hiff := verbLoop_empty_iff ctrl c' h3
          rw [← h]
          by_cases hce : c' = []
          · simp [hce, hiff.mp hce]
          · have : ctrl ≠ [] := fun hctl => hce (hiff.mpr hctl)
            simp [hce, List.isEmpty_iff, this]

/-- C8: the report returned by `audit` holds the `'Controlled'` key iff the
evaluation stage produced at least one Controlled result; with zero
controlled results, the report's keys are exactly Success and Failure
(`controlled = none`). -/
theorem audit_controlled_key_iff
    (dataList : List (String × List (String × RuleDef))) (tags : String)
    (verbose showProfile : Bool) (distro : Option String) (lookup : Val → Val)
    (idx : List (Val × List Dict)) (st : EvalSt) (rep : Report)
    (hidx : getTags distro (buildStore dataList showProfile) = .ok idx)
    (hev : evalTags lookup tags idx ⟨[], [], [], none⟩ = .ok st)
    (hrep : audit dataList tags verbose showProfile distro lookup = .ok rep) :
    (rep.controlled.isSome ↔ st.ctrl ≠ []) ∧
    (st.ctrl = [] → rep.controlled = none) := by
  unfold audit at hrep
  rw [hidx, exbind_ok, hev, exbind_ok] at hrep
  have h1 := aggregate_controlled_iff verbose st.succ st.fail st.ctrl rep hrep
  refine ⟨h1, fun hc => ?_⟩
  have h2 : ¬ rep.controlled.isSome := fun hsome => (h1.mp hsome) hc
  exact Option.not_isSome_iff_eq_none.mp h2

/-- Witness for C8: a concrete run with one controlled rule carries the
Controlled key; the conclusion is obtained by applying the theorem to the
computed pipeline stages. -/
theorem audit_controlled_key_iff_witness :
    ((⟨[(Val.vstr "TC", Payload.desc (Val.vstr "D"))], [],
        some [(Val.vstr "TC", Payload.ctrl (Val.vstr "D") (Val.vstr "approved"))]⟩ :
        Report).controlled.isSome ↔
      [[("name", Val.vstr "kernel.c"), ("tag", Val.vstr "TC"),
        ("module", Val.vstr "sysctl"), ("control", Val.vstr "approved"),
        ("description", Val.vstr "D")]] ≠ []) ∧
    ([[("name", Val.vstr "kernel.c"), ("tag", Val.vstr "TC"),
        ("module", Val.vstr "sysctl"), ("control", Val.vstr "approved"),
        ("description", Val.vstr "D")]] = ([] : List Dict) →
      (⟨[(Val.vstr "TC", Payload.desc (Val.vstr "D"))], [],
        some [(Val.vstr "TC", Payload.ctrl (Val.vstr "D") (Val.vstr "approved"))]⟩ :
        Report).controlled = none) :=
  audit_controlled_key_iff
    [("p", [("c", ⟨[("*", .lst [[("kernel.c",
        .smap [("tag", .vstr "TC"), ("control", .vstr "approved")])]])],
        [("description", .vstr "D")]⟩)])] "*" false false (some "X")
    (fun _ => Val.vstr "2")
    [(.vstr "TC", [[("name", .vstr "kernel.c"), ("tag", .vstr "TC"),
      ("module", .vstr "sysctl"), ("control", .vstr "approved"),
      ("description", .vstr "D")]])]
    ⟨[[("name", .vstr "kernel.c"), ("tag", .vstr "TC"), ("module", .vstr "sysctl"),
       ("control", .vstr "approved"), ("description", .vstr "D")]],
     [],
     [[("name", .vstr "kernel.c"), ("tag", .vstr "TC"), ("module", .vstr "sysctl"),
       ("control", .vstr "approved"), ("description", .vstr "D")]],
     some [("name", .vstr "kernel.c"), ("tag", .vstr "TC"), ("module", .vstr "sysctl"),
       ("control", .vstr "approved"), ("description", .vstr "D")]⟩
    (⟨[(Val.vstr "TC", Payload.desc (Val.vstr "D"))], [],
      some [(Val.vstr "TC", Payload.ctrl (Val.vstr "D") (Val.vstr "approved"))]⟩ : Report)
    rfl rfl rfl

end Nova
